import Mathlib

/-!
Verification of the slot-pool / encoding-registry / legend-builder core
(`src/jscatter/encodings.py`).

The Python module is shallowly embedded below:
* Python dicts become association lists with Python's update semantics
  (`dget`, `dinsert`, `dremove`, `pydictOf`);
* `Component` / `Components` / `VisualEncoding` / `Encodings` become
  structures with the same fields, and the methods become pure functions;
* methods that can raise (`assert` in `Encodings.set`, `del`/indexing
  `KeyError` in `Encodings.delete`, the assertion and lookups in
  `create_legend`) return `Except`; the error value of a registry
  operation carries the registry state at the moment the exception is
  raised, because Python keeps the mutations performed before the raise;
* numeric values (the encoded values and the normalized fractions fed to
  `norm.inverse`) are modelled as rationals; `np.linspace 0 1 n` is the
  list of exact fractions `k / (n - 1)`.
-/

deriving instance DecidableEq for Except

namespace Jscatter

/-! ### Python dictionaries as association lists -/

/-- Python `d[k]`: value of the first (unique, for a real dict) binding of `k`. -/
def dget {K V : Type} [DecidableEq K] : List (K × V) → K → Option V
  | [], _ => none
  | p :: rest, k => if p.1 = k then some p.2 else dget rest k

/-- Python `d[k] = v`: overwrite in place keeping the key's position, append if new. -/
def dinsert {K V : Type} [DecidableEq K] : List (K × V) → K → V → List (K × V)
  | [], k, v => [(k, v)]
  | p :: rest, k, v => if p.1 = k then (k, v) :: rest else p :: dinsert rest k v

/-- Python `del d[k]` for a key that is present (callers check or catch KeyError). -/
def dremove {K V : Type} [DecidableEq K] : List (K × V) → K → List (K × V)
  | [], _ => []
  | p :: rest, k => if p.1 = k then rest else p :: dremove rest k

/-- Python dict comprehension over a list of key/value pairs
(later pairs with an equal key overwrite earlier values in place). -/
def pydictOf {K V : Type} [DecidableEq K] (l : List (K × V)) : List (K × V) :=
  l.foldl (fun d p => dinsert d p.1 p.2) []

/-! ### Legend builder (`create_legend`) -/

/-- A legend label is either a category name or an inverted numeric value. -/
inductive Label where
  | str (s : String)
  | num (q : ℚ)
deriving DecidableEq, Repr

/-- One legend entry: Python's tuple `(label, encodedValue, overrideOrNone)`. -/
structure LegendEntry where
  label : Label
  value : ℚ
  override : Option String
deriving DecidableEq, Repr

/-- The dict returned by `create_legend`: `dict(variable=..., values=...)`. -/
structure Legend where
  var : Option String
  values : List LegendEntry
deriving DecidableEq, Repr

/-- The optional `labeling` dict: `variable` / `minValue` / `maxValue` keys. -/
structure Labeling where
  var : Option String := none
  minValue : Option String := none
  maxValue : Option String := none
deriving DecidableEq, Repr

/-- The exceptions `create_legend` can raise: the size-mismatch `assert`, a
`KeyError` from `cat_by_idx[...]` / a `None` index, an `IndexError` from
`encoding[...]`. -/
inductive LegendError where
  | sizeMismatch
  | keyError
  | indexError
deriving DecidableEq, Repr

/-- `np.linspace 0 1 num` as exact rationals. -/
def linspace (num : Nat) : List ℚ :=
  if num = 0 then []
  else if num = 1 then [0]
  else (List.range num).map (fun k : Nat => (k : ℚ) / ((num : ℚ) - 1))

/-- `floor` of a nonnegative rational as a `Nat` index; used to state the
claims' index formula `floor((len(encoding) - 1) * s)`. -/
def ratFloorNat (q : ℚ) : Nat := (⌊q⌋).toNat

/-- Python's translation of an `int` list index: a negative index wraps
once from the end of a list of length `len`. -/
def pyWrap (len : Nat) (i : Int) : Int := if 0 ≤ i then i else (len : Int) + i

/-- Python list indexing `l[i]` with an `int` index: wraps a negative
index; `none` (IndexError) when the wrapped index is out of range. -/
def pyIndex {α : Type} (l : List α) (i : Int) : Option α :=
  if 0 ≤ pyWrap l.length i then l[(pyWrap l.length i).toNat]? else none

/-- The continuous list comprehension
`[(norm.inverse(s), encoding[floor((len(encoding) - 1) * s)], None) for s in …]`,
evaluated left to right; `encoding[...]` raises IndexError when the
computed index is out of range (e.g. for an empty encoding). -/
def contEntries (encoding : List ℚ) (norm : ℚ → ℚ) :
    List ℚ → Except LegendError (List LegendEntry)
  | [] => .ok []
  | s :: rest =>
    match pyIndex encoding ⌊((encoding.length : ℚ) - 1) * s⌋ with
    | none => .error .indexError
    | some x =>
      (contEntries encoding norm rest).map (fun vs => ⟨Label.num (norm s), x, none⟩ :: vs)

/-- Python `values[i] = (*values[i][0:2], o)`: reads `values[i]` (wrapping
a negative index) and replaces the third tuple element in place; raises
IndexError when the index is out of range (e.g. `values[0]` on an empty
list). -/
def setThirdE (l : List LegendEntry) (i : Int) (o : Option String) :
    Except LegendError (List LegendEntry) :=
  match pyIndex l i with
  | some e => .ok (l.set ((pyWrap l.length i).toNat) { e with override := o })
  | none => .error .indexError

/-- Statement-level abbreviation: the entry the continuous branch produces
for the sample fraction `s` when the floor index is in range; the lemma
`contEntries_eq_map` shows the fallible computation `contEntries` agrees
with it whenever every index is in range (in particular for a non-empty
encoding and samples in `[0, 1]`). -/
def sampleEntry (encoding : List ℚ) (norm : ℚ → ℚ) (s : ℚ) : LegendEntry :=
  { label := Label.num (norm s)
    value := encoding.getD (ratFloorNat (((encoding.length : ℚ) - 1) * s)) 0
    override := none }

/-- The categorical list comprehension
`[(cat_by_idx[i], encoding[i], None) for i in idxs]`, where an index may be
`None` (a `categories.get` miss), evaluated left to right with the first
failing lookup raising. -/
def catEntries (cbi : List (Nat × String)) (encoding : List ℚ) :
    List (Option Nat) → Except LegendError (List LegendEntry)
  | [] => .ok []
  | none :: _ => .error .keyError
  | some i :: rest =>
    match dget cbi i with
    | none => .error .keyError
    | some cat =>
      match encoding[i]? with
      | none => .error .indexError
      | some x => (catEntries cbi encoding rest).map (fun vs => ⟨.str cat, x, none⟩ :: vs)

/-- `create_legend(encoding, norm, categories, labeling=None, linspace_num=5,
category_order=None)`.  `categories` is `None` or a dict; Python's
`if categories:` is false for both `None` and an empty dict. -/
def create_legend (encoding : List ℚ) (norm : ℚ → ℚ)
    (categories : Option (List (String × Nat)))
    (labeling : Option Labeling := none)
    (linspace_num : Nat := 5)
    (category_order : Option (List String) := none) : Except LegendError Legend :=
  let var := labeling.bind Labeling.var
  let cont : Except LegendError Legend :=
    match contEntries encoding norm (linspace linspace_num) with
    | .error e => .error e
    | .ok base =>
      match labeling with
      | none => .ok { var := var, values := base }
      | some lab =>
        match setThirdE base 0 lab.minValue with
        | .error e => .error e
        | .ok v1 =>
          match setThirdE v1 (-1) lab.maxValue with
          | .error e => .error e
          | .ok v2 => .ok { var := var, values := v2 }
  match categories with
  | none => cont
  | some cs =>
    if cs.isEmpty then cont
    else if cs.length ≠ encoding.length then .error .sizeMismatch
    else
      let cat_by_idx := pydictOf (cs.map (fun p => (p.2, p.1)))
      let idxs : List (Option Nat) :=
        match category_order with
        | none => (List.range cat_by_idx.length).map some
        | some ord => ord.map (fun lbl => dget cs lbl)
      (catEntries cat_by_idx encoding idxs).map (fun vs => { var := var, values := vs })

/-! ### Slot pool (`Component`, `Components`) -/

/-- One storage channel slot. -/
structure Component where
  index : Nat
  reserved : Bool
  encoding : Option String
  prepared : Bool
deriving DecidableEq, Repr

/-- `used = self._reserved or self._encoding is not None`. -/
def Component.used (c : Component) : Bool := c.reserved || c.encoding.isSome

/-- `store`: set the occupant. -/
def Component.store (c : Component) (e : String) : Component := { c with encoding := some e }

/-- `clear`: drop the occupant and reset `prepared`. -/
def Component.clear (c : Component) : Component := { c with encoding := none, prepared := false }

/-- The fixed-size pool: `total`, `reserved`, and the components dict
(keys `0..total-1` in insertion order, hence a list ordered by index). -/
structure Components where
  total : Nat
  reserved : Nat
  components : List Component
deriving DecidableEq, Repr

/-- `Components(total, reserved)`: the first `reserved` slots are reserved. -/
def Components.init (total : Nat := 4) (reserved : Nat := 2) : Components :=
  ⟨total, reserved, (List.range total).map (fun i => ⟨i, decide (i < reserved), none, false⟩)⟩

/-- `size`: the number of used slots. -/
def Components.size (cs : Components) : Nat := cs.components.countP (fun c => c.used)

/-- `full`: `size >= total`. -/
def Components.full (cs : Components) : Bool := decide (cs.total ≤ cs.size)

/-- The `for` loop of `Components.add`: store into the first unused slot,
returning the updated list and the stored slot (or `none` if every slot is
used, in which case Python falls off the loop and returns `None`). -/
def storeFirst : List Component → String → List Component × Option Component
  | [], _ => ([], none)
  | c :: rest, e =>
    if c.used then
      let r := storeFirst rest e
      (c :: r.1, r.2)
    else ((c.store e) :: rest, some (c.store e))

/-- `add(encoding)`: first-fit allocation unless the pool is full
(a full pool returns `None` without touching the slots). -/
def Components.add (cs : Components) (e : String) : Components × Option Component :=
  if cs.full then (cs, none)
  else
    let r := storeFirst cs.components e
    ({ cs with components := r.1 }, r.2)

/-- The `for` loop of `Components.delete`: clear the first slot whose
occupant equals `e` (no-op when there is none). -/
def clearFirst : List Component → String → List Component
  | [], _ => []
  | c :: rest, e => if c.encoding = some e then (c.clear) :: rest else c :: clearFirst rest e

/-- `delete(encoding)`. -/
def Components.delete (cs : Components) (e : String) : Components :=
  { cs with components := clearFirst cs.components e }

/-! ### Encoding registry (`VisualEncoding`, `Encodings`) -/

/-- One visual-channel record. -/
structure VisualEncoding where
  channel : String
  data : String
  legend : Option Legend := none
deriving DecidableEq, Repr

/-- Exceptions the registry operations can raise: the capacity `assert` in
`set`, and `KeyError` (from `del self.data[...]` or `self.data[...]`). -/
inductive PyErr where
  | assertionError
  | keyError
deriving DecidableEq, Repr

/-- The registry.  `data` maps a data attribute to the value Python stores:
the `Component` returned by `add` — modelled by its (unique, immutable)
index so that the pool remains the single source of slot state; `None`
(impossible on the guarded path) is kept as `Option`. -/
structure Encodings where
  data : List (String × Option Nat)
  visual : List (String × VisualEncoding)
  max : Int
  components : Components
deriving DecidableEq, Repr

/-- `Encodings(total_components, reserved_components)`. -/
def Encodings.init (total : Nat := 4) (reserved : Nat := 2) : Encodings :=
  ⟨[], [], (total : Int) - (reserved : Int), Components.init total reserved⟩

/-- The comparison `v == data_enc` performed by `Encodings.delete` on each
value of `self.visual`: `v` is a `VisualEncoding` dataclass instance and
`data_enc` a `str`, so Python's `==` is always `False` (dataclass `__eq__`
returns `NotImplemented` for a different type and identity comparison
fails).  The intended comparison — the one `is_unique` performs — would
have been `v.data == data_enc`. -/
def veEqStr (_ve : VisualEncoding) (_s : String) : Bool := false

/-- `is_unique(visual_enc)`. -/
def Encodings.is_unique (E : Encodings) (v : String) : Bool :=
  match dget E.visual v with
  | none => false
  | some ve => decide (E.visual.countP (fun p => decide (p.2.data = ve.data)) = 1)

/-- `delete(visual_enc)`.  On the `del self.data[data_enc]` `KeyError` the
error value carries the state already mutated (visual entry removed,
component cleared). -/
def Encodings.delete (E : Encodings) (v : String) : Except (PyErr × Encodings) Encodings :=
  match dget E.visual v with
  | none => .ok E
  | some ve =>
    let visual1 := dremove E.visual v
    if visual1.countP (fun p => veEqStr p.2 ve.data) = 0 then
      let cs := E.components.delete ve.data
      match dget E.data ve.data with
      | none => .error (.keyError, { E with visual := visual1, components := cs })
      | some _ =>
        .ok { E with visual := visual1, components := cs, data := dremove E.data ve.data }
    else .ok { E with visual := visual1 }

/-- `set(visual_enc, data_enc)`.  The capacity `assert` raises with the
state as mutated so far (the `is_unique`-guarded `delete` has already
happened when it did). -/
def Encodings.set (E : Encodings) (v d : String) : Except (PyErr × Encodings) Encodings :=
  match (if E.is_unique v then E.delete v else .ok E) with
  | .error e => .error e
  | .ok E1 =>
    match dget E1.data d with
    | none =>
      if E1.components.full then .error (.assertionError, E1)
      else
        let r := E1.components.add d
        .ok { E1 with components := r.1
                      data := dinsert E1.data d (r.2.map Component.index)
                      visual := dinsert E1.visual v ⟨v, d, none⟩ }
    | some _ => .ok { E1 with visual := dinsert E1.visual v ⟨v, d, none⟩ }

/-- `get(visual_enc)`: `None` when the channel is unset, otherwise
`self.data[self.visual[visual_enc].data]` (KeyError when the attribute has
no entry). -/
def Encodings.get (E : Encodings) (v : String) : Except PyErr (Option (Option Nat)) :=
  match dget E.visual v with
  | none => .ok none
  | some ve =>
    match dget E.data ve.data with
    | none => .error .keyError
    | some x => .ok (some x)

/-- `get_legend(visual_enc)`. -/
def Encodings.get_legend (E : Encodings) (v : String) : Option (Option Legend) :=
  (dget E.visual v).map VisualEncoding.legend

/-- `set_legend(visual_enc, encoding, norm, categories, labeling,
linspace_num, category_order)`: a silent no-op on an unset channel. -/
def Encodings.set_legend (E : Encodings) (v : String) (encoding : List ℚ) (norm : ℚ → ℚ)
    (categories : Option (List (String × Nat)))
    (labeling : Option Labeling := none)
    (linspace_num : Nat := 5)
    (category_order : Option (List String) := none) : Except LegendError Encodings :=
  match dget E.visual v with
  | none => .ok E
  | some ve =>
    (create_legend encoding norm categories labeling linspace_num category_order).map
      (fun lg => { E with visual := dinsert E.visual v { ve with legend := some lg } })

/-! ### Invariants -/

/-- Pool well-formedness: the components list has `total` entries (as built
by `Components.init`) and reserved slots never hold an occupant. -/
def Components.wf (cs : Components) : Prop :=
  cs.components.length = cs.total ∧
  ∀ c ∈ cs.components, c.reserved = true → c.encoding = none

/-- Registry well-formedness: every visual channel's data attribute has a
`data` entry, and every `data` key occupies some slot. -/
def Encodings.wfState (E : Encodings) : Prop :=
  E.components.wf ∧
  (∀ p ∈ E.visual, (dget E.data p.2.data).isSome = true) ∧
  (∀ p ∈ E.data, ∃ c ∈ E.components.components, c.encoding = some p.1)

/-- The spec's registry invariant (claim C2): every value in `dataEncodings`
is a slot currently marked used in the pool and is referenced by at least
one `VisualEncoding`; conversely every referenced data attribute has a
`dataEncodings` entry. -/
def Encodings.claimInvariant (E : Encodings) : Prop :=
  (∀ p ∈ E.data,
    (∃ c ∈ E.components.components, some c.index = p.2 ∧ c.used = true) ∧
    (∃ q ∈ E.visual, q.2.data = p.1)) ∧
  (∀ q ∈ E.visual, ∃ p ∈ E.data, p.1 = q.2.data)

instance (cs : Components) : Decidable cs.wf := by
  unfold Components.wf; infer_instance

instance (E : Encodings) : Decidable E.wfState := by
  unfold Encodings.wfState; infer_instance

instance (E : Encodings) : Decidable E.claimInvariant := by
  unfold Encodings.claimInvariant; infer_instance

/-! ### Concrete scenario states

The registry states reached by the short call sequences the claims talk
about, written out literally (each is proved equal to the corresponding
call chain in the theorems below). -/

/-- After `set("c1","a"); set("c2","a")` on a fresh `Encodings(4, 2)`:
both channels share attribute `"a"`, which occupies slot 2. -/
def stateA2 : Encodings :=
  ⟨[("a", some 2)],
   [("c1", ⟨"c1", "a", none⟩), ("c2", ⟨"c2", "a", none⟩)],
   2,
   ⟨4, 2, [⟨0, true, none, false⟩, ⟨1, true, none, false⟩,
           ⟨2, false, some "a", false⟩, ⟨3, false, none, false⟩]⟩⟩

/-- What `delete("c1")` actually leaves behind from `stateA2`: slot 2 freed
and `"a"` gone from `data`, although `"c2"` still references `"a"`. -/
def stateA3 : Encodings :=
  ⟨[], [("c2", ⟨"c2", "a", none⟩)], 2,
   ⟨4, 2, [⟨0, true, none, false⟩, ⟨1, true, none, false⟩,
           ⟨2, false, none, false⟩, ⟨3, false, none, false⟩]⟩⟩

/-- After `set("c1","a"); set("c2","b")` on a fresh `Encodings(4, 2)`:
the pool is full (2 reserved + 2 allocated). -/
def stateB2 : Encodings :=
  ⟨[("a", some 2), ("b", some 3)],
   [("c1", ⟨"c1", "a", none⟩), ("c2", ⟨"c2", "b", none⟩)],
   2,
   ⟨4, 2, [⟨0, true, none, false⟩, ⟨1, true, none, false⟩,
           ⟨2, false, some "a", false⟩, ⟨3, false, some "b", false⟩]⟩⟩

/-- After additionally `delete("c1")` from `stateB2`: slot 2 is free again
and `"b"` still occupies slot 3. -/
def stateB3 : Encodings :=
  ⟨[("b", some 3)],
   [("c2", ⟨"c2", "b", none⟩)],
   2,
   ⟨4, 2, [⟨0, true, none, false⟩, ⟨1, true, none, false⟩,
           ⟨2, false, none, false⟩, ⟨3, false, some "b", false⟩]⟩⟩

/-- What `set("c2","b")` produces from `stateB3`: the attribute `"b"` has
been freed and reallocated, moving from slot 3 to slot 2. -/
def stateB4 : Encodings :=
  ⟨[("b", some 2)],
   [("c2", ⟨"c2", "b", none⟩)],
   2,
   ⟨4, 2, [⟨0, true, none, false⟩, ⟨1, true, none, false⟩,
           ⟨2, false, some "b", false⟩, ⟨3, false, none, false⟩]⟩⟩

/-- After `set(c1,a); set(c2,a); delete(c1); set(c3,b); set(c4,c)` on a
fresh `Encodings(4, 2)`: the buggy `delete` (see C1/C2) has orphaned
channel `"c2"`, which still references `"a"` although `"a"` has no
`dataEncodings` entry; the pool is full again with `"b"` and `"c"`. -/
def stateC5 : Encodings :=
  ⟨[("b", some 2), ("c", some 3)],
   [("c2", ⟨"c2", "a", none⟩), ("c3", ⟨"c3", "b", none⟩), ("c4", ⟨"c4", "c", none⟩)],
   2,
   ⟨4, 2, [⟨0, true, none, false⟩, ⟨1, true, none, false⟩,
           ⟨2, false, some "b", false⟩, ⟨3, false, some "c", false⟩]⟩⟩

/-- The state the failed `set("c2","d")` leaves behind from `stateC5`: the
`KeyError` from `del self.data["a"]` fires after the `"c2"` visual entry
has already been removed. -/
def stateC6 : Encodings :=
  ⟨[("b", some 2), ("c", some 3)],
   [("c3", ⟨"c3", "b", none⟩), ("c4", ⟨"c4", "c", none⟩)],
   2,
   ⟨4, 2, [⟨0, true, none, false⟩, ⟨1, true, none, false⟩,
           ⟨2, false, some "b", false⟩, ⟨3, false, some "c", false⟩]⟩⟩

/-- A pool of four unreserved slots with slots 0 and 1 occupied and the
occupant of slot 2 just freed (slot 3 free as well). -/
def demoPool : Components :=
  Components.delete
    ⟨4, 0, [⟨0, false, some "p", false⟩, ⟨1, false, some "q", false⟩,
            ⟨2, false, some "r", false⟩, ⟨3, false, none, false⟩]⟩ "r"

/-! ### Association-list and pool lemmas -/

theorem dget_some_mem {K V : Type} [DecidableEq K] {l : List (K × V)} {k : K} {v : V}
    (h : dget l k = some v) : (k, v) ∈ l := by
  induction l with
  | nil => simp [dget] at h
  | cons p rest ih =>
    rw [dget] at h
    by_cases hp : p.1 = k
    · rw [if_pos hp] at h
      have hb := Option.some.inj h
      have hkv : (k, v) = p := by rw [← hp, ← hb]
      rw [hkv]
      exact List.mem_cons_self _ _
    · rw [if_neg hp] at h
      exact List.mem_cons_of_mem _ (ih h)

theorem dget_isSome_iff {K V : Type} [DecidableEq K] (l : List (K × V)) (k : K) :
    (dget l k).isSome = true ↔ k ∈ l.map Prod.fst := by
  induction l with
  | nil => simp [dget]
  | cons p rest ih =>
    rw [dget]
    by_cases hp : p.1 = k
    · rw [if_pos hp]
      simp [List.map_cons, List.mem_cons, hp]
    · rw [if_neg hp]
      rw [ih]
      simp only [List.map_cons, List.mem_cons]
      constructor
      · exact Or.inr
      · rintro (h | h)
        · exact absurd h.symm hp
        · exact h

theorem countP_veEqStr (l : List (String × VisualEncoding)) (s : String) :
    l.countP (fun p => veEqStr p.2 s) = 0 := by
  simp [List.countP_eq_zero, veEqStr]

/-- The `add` loop stores into the first unused slot: there is a position
`j` whose slot is unused, every earlier slot is used, and the loop returns
the list with position `j` overwritten together with the stored slot. -/
theorem storeFirst_spec (l : List Component) (e : String)
    (hex : ∃ c ∈ l, c.used = false) :
    ∃ (j : Nat) (hj : j < l.length),
      (l[j]).used = false ∧
      (∀ k, k < j → ∀ (hk : k < l.length), (l[k]).used = true) ∧
      storeFirst l e = (l.set j ((l[j]).store e), some ((l[j]).store e)) := by
  induction l with
  | nil => simp at hex
  | cons c rest ih =>
    by_cases hc : c.used = true
    · have hex' : ∃ c' ∈ rest, c'.used = false := by
        obtain ⟨c', hm, hu⟩ := hex
        rcases List.mem_cons.mp hm with rfl | hm'
        · rw [hc] at hu; cases hu
        · exact ⟨c', hm', hu⟩
      obtain ⟨j, hj, h1, h2, h3⟩ := ih hex'
      refine ⟨j + 1, Nat.succ_lt_succ hj, ?_, ?_, ?_⟩
      · simpa using h1
      · intro k hk hklen
        match k with
        | 0 => simpa using hc
        | k' + 1 =>
          have := h2 k' (Nat.lt_of_succ_lt_succ hk) (Nat.lt_of_succ_lt_succ hklen)
          simpa using this
      · simp only [storeFirst, hc, if_true, List.set_cons_succ, List.getElem_cons_succ, h3]
    · have hcf : c.used = false := by simpa using hc
      refine ⟨0, Nat.succ_pos _, by simpa using hcf, ?_, ?_⟩
      · intro k hk _; exact absurd hk (Nat.not_lt_zero k)
      · simp [storeFirst, hcf]

/-- Clearing the slot occupied by `a` frees exactly one used slot, provided
some slot holds `a` and reserved slots never hold occupants. -/
theorem clearFirst_countP_used (l : List Component) (a : String)
    (hres : ∀ c ∈ l, c.reserved = true → c.encoding = none)
    (hex : ∃ c ∈ l, c.encoding = some a) :
    (clearFirst l a).countP (fun c => c.used) + 1 = l.countP (fun c => c.used) := by
  induction l with
  | nil => simp at hex
  | cons c rest ih =>
    by_cases hc : c.encoding = some a
    · have hcr : c.reserved = false := by
        by_cases hr : c.reserved = true
        · exact absurd (hres c (List.mem_cons_self _ _) hr) (by simp [hc])
        · simpa using hr
      have hcu : c.used = true := by simp [Component.used, hc]
      have hclear : (c.clear).used = false := by
        simp [Component.clear, Component.used, hcr]
      rw [clearFirst, if_pos hc, List.countP_cons, List.countP_cons]
      simp [hclear, hcu]
    · rw [clearFirst, if_neg hc, List.countP_cons, List.countP_cons]
      have hex' : ∃ c' ∈ rest, c'.encoding = some a := by
        obtain ⟨c', hm, he⟩ := hex
        rcases List.mem_cons.mp hm with rfl | hm'
        · exact absurd he hc
        · exact ⟨c', hm', he⟩
      have := ih (fun c' hm hr => hres c' (List.mem_cons_of_mem _ hm) hr) hex'
      omega

/-! ### C3: behaviour of a failed `set` -/

/-- Supporting lemma (the spec's intended behaviour): on a registry
satisfying `wfState` — in particular, one where every channel's attribute
is still backed by a `dataEncodings` entry and an occupied slot —
`set(visualChannel, dataAttribute)` can only fail with the capacity
assertion, and when it fails the error state is exactly the pre-call
state; the error fires precisely when no removal happens (`is_unique`
false), the attribute has no slot allocation, and the pool is full.
States corrupted by the `delete` bug of C1/C2 violate `wfState`, and there
`set` can instead raise `KeyError` non-atomically — see
`set_full_new_attribute_keyerror_bug`. -/
theorem set_capacity_error_atomic (E : Encodings) (v d : String) (hwf : E.wfState) :
    (∀ p E', E.set v d = .error (p, E') → p = PyErr.assertionError ∧ E' = E) ∧
    (E.is_unique v = false → dget E.data d = none → E.components.full = true →
      E.set v d = .error (.assertionError, E)) := by
  obtain ⟨⟨hlen, hres⟩, hvis, hdat⟩ := hwf
  by_cases hu : E.is_unique v = true
  · -- a removal happens: it frees a slot, so no error can fire at all
    have hve : ∃ ve, dget E.visual v = some ve := by
      rcases hvv : dget E.visual v with _ | ve
      · simp [Encodings.is_unique, hvv] at hu
      · exact ⟨ve, rfl⟩
    obtain ⟨ve, hvv⟩ := hve
    have hdve := hvis (v, ve) (dget_some_mem hvv)
    obtain ⟨x, hx⟩ := Option.isSome_iff_exists.mp hdve
    have hdel : E.delete v =
        .ok ⟨dremove E.data ve.data, dremove E.visual v, E.max,
             E.components.delete ve.data⟩ := by
      simp [Encodings.delete, hvv, countP_veEqStr, hx]
    have hslot := hdat (ve.data, x) (dget_some_mem hx)
    have hsz : (E.components.delete ve.data).size + 1 = E.components.size := by
      rw [Components.size, Components.size, Components.delete]
      exact clearFirst_countP_used _ _ hres hslot
    have hszle : E.components.size ≤ E.components.total := by
      rw [Components.size, ← hlen]
      exact List.countP_le_length _
    have hfull1 : (E.components.delete ve.data).full = false := by
      rw [Components.full]
      exact decide_eq_false (by
        have htot : (E.components.delete ve.data).total = E.components.total := rfl
        omega)
    have hcontra : E.is_unique v = false → False := fun huf => by
      rw [hu] at huf; cases huf
    rcases hdd2 : dget (dremove E.data ve.data) d with _ | y
    · have hset : ∃ E'', E.set v d = .ok E'' := by
        simp [Encodings.set, hu, hdel, hdd2, hfull1]
      obtain ⟨E'', hset⟩ := hset
      exact ⟨fun p E' h => by rw [hset] at h; simp at h,
             fun huf => absurd (hcontra huf) (by simp)⟩
    · have hset : ∃ E'', E.set v d = .ok E'' := by
        simp [Encodings.set, hu, hdel, hdd2]
      obtain ⟨E'', hset⟩ := hset
      exact ⟨fun p E' h => by rw [hset] at h; simp at h,
             fun huf => absurd (hcontra huf) (by simp)⟩
  · -- no removal: the only possible failure is the capacity assert, with
    -- the registry untouched
    have hu' : E.is_unique v = false := by simpa using hu
    rcases hdd : dget E.data d with _ | x
    · by_cases hf : E.components.full = true
      · have hset : E.set v d = .error (.assertionError, E) := by
          simp [Encodings.set, hu', hdd, hf]
        constructor
        · intro p E' h
          rw [hset] at h
          have h2 := Except.error.inj h.symm
          exact (Prod.mk.injEq _ _ _ _).mp h2
        · intro _ _ _; exact hset
      · have hf' : E.components.full = false := by simpa using hf
        have hset : ∃ E'', E.set v d = .ok E'' := by
          simp [Encodings.set, hu', hdd, hf']
        obtain ⟨E'', hset⟩ := hset
        constructor
        · intro p E' h; rw [hset] at h; simp at h
        · intro _ _ hfull; rw [hf'] at hfull; cases hfull
    · have hset : E.set v d = .ok { E with visual := dinsert E.visual v ⟨v, d, none⟩ } := by
        simp [Encodings.set, hu', hdd]
      constructor
      · intro p E' h; rw [hset] at h; simp at h
      · intro _ hnone _; cases hnone

/-- Instantiation of `set_capacity_error_atomic`: `stateB2` is well-formed
and full; setting a third distinct attribute fails with the capacity
assertion and the error carries the unchanged state. -/
theorem set_capacity_error_atomic_witness :
    stateB2.wfState ∧ stateB2.is_unique "c3" = false ∧ dget stateB2.data "c" = none ∧
    stateB2.components.full = true ∧
    stateB2.set "c3" "c" = .error (.assertionError, stateB2) := by
  refine ⟨by decide, by decide, by decide, by decide, ?_⟩
  exact (set_capacity_error_atomic stateB2 "c3" "c" (by decide)).2
    (by decide) (by decide) (by decide)

/-- C3: the atomic-capacity-error claim fails on the code for a reachable
registry state.  Starting from a fresh `Encodings(4, 2)`, the call chain
`set(c1,a); set(c2,a); delete(c1); set(c3,b); set(c4,c)` reaches
`stateC5` (the buggy `delete` of C1/C2 left channel `"c2"` referencing
`"a"` without a `dataEncodings` entry; the pool is full).  Calling
`set("c2","d")` there — a brand-new data attribute on a full pool — raises
`KeyError` (from `del self.data["a"]` inside the `is_unique`-guarded
`delete`) instead of the capacity error, and the error state has the
`"c2"` visual entry already removed: the registry is not left as before
the call. -/
theorem set_full_new_attribute_keyerror_bug :
    ((Encodings.init 4 2).set "c1" "a" >>= fun E => E.set "c2" "a" >>= fun E2 =>
      E2.delete "c1" >>= fun E3 => E3.set "c3" "b" >>= fun E4 => E4.set "c4" "c") =
        .ok stateC5 ∧
    stateC5.components.full = true ∧
    dget stateC5.data "d" = none ∧
    stateC5.set "c2" "d" = .error (.keyError, stateC6) ∧
    stateC6 ≠ stateC5 := by
  decide

/-! ### C5: allocation is deterministic first-fit by ascending index -/

/-- C5: for every pool whose components list is well-formed (one slot per
index `0..total-1`, in order) and that is not full, `add(attribute)`
selects the slot at the lowest index `j` whose `used` flag is false (every
lower index is used, and every unused slot has index at least `j`), sets
its occupant to the attribute, returns that slot, and only overwrites
position `j` of the pool. -/
theorem add_first_fit (cs : Components) (e : String)
    (hlen : cs.components.length = cs.total)
    (hidx : ∀ k, (hk : k < cs.components.length) → (cs.components[k]).index = k)
    (hfull : cs.full = false) :
    ∃ (j : Nat) (hj : j < cs.components.length),
      (cs.components[j]).used = false ∧
      (cs.components[j]).index = j ∧
      (∀ k, (hk : k < cs.components.length) →
        (cs.components[k]).used = false → j ≤ (cs.components[k]).index) ∧
      (cs.add e).2 = some ((cs.components[j]).store e) ∧
      (cs.add e).2.map Component.encoding = some (some e) ∧
      (cs.add e).2.map Component.index = some j ∧
      (cs.add e).1.components = cs.components.set j ((cs.components[j]).store e) ∧
      (cs.add e).1.total = cs.total ∧ (cs.add e).1.reserved = cs.reserved := by
  have hsz : cs.size < cs.total := by
    have h1 : ¬ (cs.total ≤ cs.size) := of_decide_eq_false hfull
    omega
  have hex : ∃ c ∈ cs.components, c.used = false := by
    by_contra hno
    push_neg at hno
    have hall : cs.components.countP (fun c => c.used) = cs.components.length :=
      List.countP_eq_length.mpr (fun a ha => by
        have := hno a ha
        simpa using this)
    rw [Components.size] at hsz
    omega
  obtain ⟨j, hj, h1, h2, h3⟩ := storeFirst_spec cs.components e hex
  have hadd : cs.add e =
      ({ cs with components := cs.components.set j ((cs.components[j]).store e) },
        some ((cs.components[j]).store e)) := by
    rw [Components.add, if_neg (by rw [hfull]; exact Bool.false_ne_true)]
    rw [h3]
  refine ⟨j, hj, h1, hidx j hj, ?_, ?_, ?_, ?_, ?_, ?_, ?_⟩
  · intro k hk hkused
    rw [hidx k hk]
    by_contra hlt
    push_neg at hlt
    exact absurd (h2 k hlt hk) (by simp [hkused])
  · rw [hadd]
  · rw [hadd]; simp [Component.store]
  · rw [hadd]; simp [Component.store, hidx j hj]
  · rw [hadd]
  · rw [hadd]
  · rw [hadd]

/-- Witness for `add_first_fit`: in `demoPool` (slots 0 and 1 occupied,
slot 2 freshly freed, slot 3 free) the next allocation goes to index 2. -/
theorem add_first_fit_witness :
    (demoPool.add "s").2.map Component.index = some 2 ∧
    (∃ (j : Nat) (hj : j < demoPool.components.length),
      (demoPool.components[j]).used = false ∧
      (demoPool.components[j]).index = j ∧
      (∀ k, (hk : k < demoPool.components.length) →
        (demoPool.components[k]).used = false → j ≤ (demoPool.components[k]).index) ∧
      (demoPool.add "s").2 = some ((demoPool.components[j]).store "s") ∧
      (demoPool.add "s").2.map Component.encoding = some (some "s") ∧
      (demoPool.add "s").2.map Component.index = some j ∧
      (demoPool.add "s").1.components =
        demoPool.components.set j ((demoPool.components[j]).store "s") ∧
      (demoPool.add "s").1.total = demoPool.total ∧
      (demoPool.add "s").1.reserved = demoPool.reserved) := by
  refine ⟨by decide, ?_⟩
  exact add_first_fit demoPool "s" (by decide) (by decide) (by decide)

/-! ### C6 (amended): re-setting a shared attribute is a pool no-op -/

/-- C6 amended: if `visualChannel` is already set to `dataAttribute` but is
not the sole channel referencing it (`is_unique` is false), then
`set(visualChannel, dataAttribute)` succeeds, leaves the pool and
`dataEncodings` untouched, and merely rewrites the channel's
`VisualEncoding` (when the channel is the sole referencer the call instead
frees and reallocates the slot — see the counterexample). -/
theorem set_shared_same_noop (E : Encodings) (v d : String) (ve : VisualEncoding)
    (_hv : dget E.visual v = some ve) (_hd : ve.data = d)
    (hu : E.is_unique v = false) (hin : (dget E.data d).isSome = true) :
    ∃ E', E.set v d = .ok E' ∧ E'.components = E.components ∧ E'.data = E.data ∧
      E'.visual = dinsert E.visual v ⟨v, d, none⟩ := by
  obtain ⟨x, hx⟩ := Option.isSome_iff_exists.mp hin
  refine ⟨{ E with visual := dinsert E.visual v ⟨v, d, none⟩ }, ?_, rfl, rfl, rfl⟩
  simp [Encodings.set, hu, hx]

/-- Witness for `set_shared_same_noop`: in `stateA2` both channels share
attribute `"a"`, so re-setting `"c1"` to `"a"` leaves pool and data map
unchanged. -/
theorem set_shared_same_noop_witness :
    ∃ E', stateA2.set "c1" "a" = .ok E' ∧ E'.components = stateA2.components ∧
      E'.data = stateA2.data ∧
      E'.visual = dinsert stateA2.visual "c1" ⟨"c1", "a", none⟩ :=
  set_shared_same_noop stateA2 "c1" "a" ⟨"c1", "a", none⟩ (by decide) rfl
    (by decide) (by decide)

/-! ### C9: the set / get / delete round trip on a fresh registry -/

theorem countP_range_lt (r t : Nat) :
    (List.range t).countP (fun i => decide (i < r)) = min r t := by
  induction t with
  | zero => simp
  | succ n ih =>
    rw [List.range_succ, List.countP_append, ih]
    by_cases hn : n < r <;> simp [hn] <;> omega

theorem init_size (t r : Nat) : (Components.init t r).size = min r t := by
  rw [Components.size, Components.init, List.countP_map]
  have hfun : ((fun c => Component.used c) ∘
      (fun i => (⟨i, decide (i < r), none, false⟩ : Component))) =
      fun i => decide (i < r) := by
    funext i
    simp [Component.used]
  rw [hfun, countP_range_lt]

/-- C9: on any fresh registry with spare capacity, `set("color","a")`
succeeds; `get("color")` then returns the slot allocated for `"a"` (the
same value `dataEncodings` maps `"a"` to, and a pool slot whose occupant
is `"a"`); after `delete("color")`, `get("color")` returns `None`. -/
theorem round_trip (t r : Nat) (h : r < t) :
    ∃ E1 i, (Encodings.init t r).set "color" "a" = .ok E1 ∧
      E1.get "color" = .ok (some (some i)) ∧
      dget E1.data "a" = some (some i) ∧
      (∃ c ∈ E1.components.components, c.index = i ∧ c.encoding = some "a") ∧
      ∃ E2, E1.delete "color" = .ok E2 ∧ E2.get "color" = .ok none := by
  have hfull : (Components.init t r).full = false := by
    rw [Components.full, init_size, Nat.min_eq_left (Nat.le_of_lt h)]
    exact decide_eq_false (Nat.not_le.mpr h)
  have hex : ∃ c ∈ (Components.init t r).components, c.used = false := by
    refine ⟨⟨r, decide (r < r), none, false⟩,
      List.mem_map.mpr ⟨r, List.mem_range.mpr h, rfl⟩, ?_⟩
    simp [Component.used]
  obtain ⟨j, hj, hjused, hjmin, hsf⟩ :=
    storeFirst_spec (Components.init t r).components "a" hex
  have hadd : (Components.init t r).add "a" =
      (⟨t, r, (Components.init t r).components.set j
          (((Components.init t r).components[j]).store "a")⟩,
       some (((Components.init t r).components[j]).store "a")) := by
    simp only [Components.add, hfull, Bool.false_eq_true, if_false, hsf]
    rfl
  have hset : (Encodings.init t r).set "color" "a" =
      .ok ⟨[("a", some (((Components.init t r).components[j]).index))],
           [("color", ⟨"color", "a", none⟩)],
           (t : Int) - (r : Int),
           ⟨t, r, (Components.init t r).components.set j
              (((Components.init t r).components[j]).store "a")⟩⟩ := by
    simp [Encodings.set, Encodings.init, Encodings.is_unique, hadd, hfull, dget, dinsert,
      Component.store]
  refine ⟨_, ((Components.init t r).components[j]).index, hset, ?_, ?_, ?_, ?_⟩
  · simp [Encodings.get, dget]
  · simp [dget]
  · have hj' : j < ((Components.init t r).components.set j
        (((Components.init t r).components[j]).store "a")).length := by
      rw [List.length_set]; exact hj
    refine ⟨((Components.init t r).components[j]).store "a",
      (List.getElem_set_self hj') ▸ List.getElem_mem hj', rfl, rfl⟩
  · refine ⟨⟨[], [], (t : Int) - (r : Int),
      Components.delete ⟨t, r, (Components.init t r).components.set j
        (((Components.init t r).components[j]).store "a")⟩ "a"⟩, ?_, ?_⟩
    · simp [Encodings.delete, dget, dremove, countP_veEqStr]
    · simp [Encodings.get, dget]

/-- Witness for `round_trip` at the default pool shape `Encodings(4, 2)`. -/
theorem round_trip_witness :
    ∃ E1 i, (Encodings.init 4 2).set "color" "a" = .ok E1 ∧
      E1.get "color" = .ok (some (some i)) ∧
      dget E1.data "a" = some (some i) ∧
      (∃ c ∈ E1.components.components, c.index = i ∧ c.encoding = some "a") ∧
      ∃ E2, E1.delete "color" = .ok E2 ∧ E2.get "color" = .ok none :=
  round_trip 4 2 (by decide)

/-! ### C7: continuous legend construction -/

theorem setThirdE_zero (l : List LegendEntry) (o : Option String) (e : LegendEntry)
    (h : l[0]? = some e) : setThirdE l 0 o = .ok (l.set 0 { e with override := o }) := by
  have hw : pyWrap l.length 0 = 0 := if_pos le_rfl
  have hp : pyIndex l 0 = l[0]? := by
    rw [pyIndex, hw, if_pos le_rfl]
    simp
  rw [setThirdE, hp, h, hw]
  simp

theorem setThirdE_last (l : List LegendEntry) (o : Option String) (e : LegendEntry)
    (_hlen : 1 ≤ l.length) (h : l[l.length - 1]? = some e) :
    setThirdE l (-1) o = .ok (l.set (l.length - 1) { e with override := o }) := by
  have hw : pyWrap l.length (-1) = ((l.length - 1 : Nat) : Int) := by
    rw [pyWrap, if_neg (by omega)]
    omega
  have hp : pyIndex l (-1) = l[l.length - 1]? := by
    rw [pyIndex, hw, if_pos (by omega)]
    simp
  rw [setThirdE, hp, h, hw]
  simp

/-- When every requested floor index is in range, the fallible continuous
comprehension succeeds and produces exactly the `sampleEntry` list. -/
theorem contEntries_eq_map (encoding : List ℚ) (norm : ℚ → ℚ) (ss : List ℚ)
    (_hlen : 1 ≤ encoding.length)
    (h : ∀ s ∈ ss, 0 ≤ ((encoding.length : ℚ) - 1) * s ∧
      ((encoding.length : ℚ) - 1) * s ≤ (encoding.length : ℚ) - 1) :
    contEntries encoding norm ss = .ok (ss.map (fun s => sampleEntry encoding norm s)) := by
  induction ss with
  | nil => rfl
  | cons s rest ih =>
    obtain ⟨h0, h1⟩ := h s (List.mem_cons_self _ _)
    have hf0 : 0 ≤ ⌊((encoding.length : ℚ) - 1) * s⌋ := Int.floor_nonneg.mpr h0
    have hcast : ((encoding.length : ℚ) - 1) = (((encoding.length : Int) - 1 : Int) : ℚ) := by
      push_cast
      ring
    have hfle : ⌊((encoding.length : ℚ) - 1) * s⌋ ≤ (encoding.length : Int) - 1 := by
      have hh := Int.floor_le_floor h1
      have hfc : ⌊((encoding.length : ℚ) - 1)⌋ = (encoding.length : Int) - 1 := by
        rw [hcast, Int.floor_intCast]
      omega
    have hlt : (⌊((encoding.length : ℚ) - 1) * s⌋).toNat < encoding.length := by omega
    have hpy : pyIndex encoding ⌊((encoding.length : ℚ) - 1) * s⌋ =
        some (encoding[(⌊((encoding.length : ℚ) - 1) * s⌋).toNat]) := by
      rw [pyIndex, pyWrap, if_pos hf0, if_pos hf0]
      exact List.getElem?_eq_getElem hlt
    have hgd : encoding.getD (ratFloorNat (((encoding.length : ℚ) - 1) * s)) 0 =
        encoding[(⌊((encoding.length : ℚ) - 1) * s⌋).toNat] :=
      List.getD_eq_getElem encoding 0 hlt
    simp only [contEntries, hpy, ih (fun x hx => h x (List.mem_cons_of_mem _ hx)),
      List.map_cons, Except.map, sampleEntry, hgd]

/-- The general continuous-branch characterisation (the first conjunct of
`continuous_legend`), proved once so the concrete example can be derived
from it. -/
theorem continuous_legend_aux :
    (∀ (encoding : List ℚ) (norm : ℚ → ℚ) (labeling : Option Labeling)
        (num : Nat) (ord : Option (List String)),
      1 ≤ encoding.length → 2 ≤ num →
      ∃ vals, create_legend encoding norm none labeling num ord =
          .ok { var := labeling.bind Labeling.var, values := vals } ∧
        vals.length = num ∧
        ∀ k, k < num →
          vals[k]? = some
            { label := Label.num (norm ((k : ℚ) / ((num : ℚ) - 1)))
              value := encoding.getD
                (ratFloorNat (((encoding.length : ℚ) - 1) * ((k : ℚ) / ((num : ℚ) - 1)))) 0
              override := if k = 0 then labeling.bind Labeling.minValue
                else if k = num - 1 then labeling.bind Labeling.maxValue
                else none }) := by
  intro encoding norm labeling num ord hn hs
  have h0 : num ≠ 0 := by omega
  have h1 : num ≠ 1 := by omega
  have hlin : linspace num =
      (List.range num).map (fun k : Nat => (k : ℚ) / ((num : ℚ) - 1)) := by
    rw [linspace, if_neg h0, if_neg h1]
  have hden : (0 : ℚ) < (num : ℚ) - 1 := by
    have h2 : (2 : ℚ) ≤ (num : ℚ) := by exact_mod_cast hs
    linarith
  have hl1 : (0 : ℚ) ≤ (encoding.length : ℚ) - 1 := by
    have hc : (1 : ℚ) ≤ (encoding.length : ℚ) := by exact_mod_cast hn
    linarith
  have hbounds : ∀ s ∈ linspace num,
      0 ≤ ((encoding.length : ℚ) - 1) * s ∧
      ((encoding.length : ℚ) - 1) * s ≤ (encoding.length : ℚ) - 1 := by
    intro s hsm
    rw [hlin] at hsm
    obtain ⟨k, hk, rfl⟩ := List.mem_map.mp hsm
    have hk' : k < num := List.mem_range.mp hk
    have hs0 : (0 : ℚ) ≤ (k : ℚ) / ((num : ℚ) - 1) :=
      div_nonneg (by positivity) (le_of_lt hden)
    have hs1 : (k : ℚ) / ((num : ℚ) - 1) ≤ 1 := by
      rw [div_le_one hden]
      have hc : ((k : ℚ)) + 1 ≤ (num : ℚ) := by exact_mod_cast hk'
      linarith
    exact ⟨mul_nonneg hl1 hs0, mul_le_of_le_one_right hl1 hs1⟩
  have hcont : contEntries encoding norm (linspace num) =
      .ok ((List.range num).map
        (fun k : Nat => sampleEntry encoding norm ((k : ℚ) / ((num : ℚ) - 1)))) := by
    rw [contEntries_eq_map encoding norm (linspace num) hn hbounds, hlin, List.map_map]
    rfl
  have hblen : ((List.range num).map
      (fun k : Nat => sampleEntry encoding norm ((k : ℚ) / ((num : ℚ) - 1)))).length = num := by
    rw [List.length_map, List.length_range]
  have hbget : ∀ k, k < num → ((List.range num).map
      (fun k : Nat => sampleEntry encoding norm ((k : ℚ) / ((num : ℚ) - 1))))[k]? =
      some (sampleEntry encoding norm ((k : ℚ) / ((num : ℚ) - 1))) := by
    intro k hk
    rw [List.getElem?_map, List.getElem?_range hk, Option.map_some']
  cases labeling with
  | none =>
    refine ⟨_, ?_, hblen, ?_⟩
    · show create_legend encoding norm none none num ord = _
      rw [create_legend, hcont]
    · intro k hk
      rw [hbget k hk]
      have hov : (if k = 0 then (none : Option Labeling).bind Labeling.minValue
          else if k = num - 1 then (none : Option Labeling).bind Labeling.maxValue
          else none) = none := by
        by_cases hk0 : k = 0 <;> by_cases hk1 : k = num - 1 <;> simp [hk0, hk1]
      rw [hov]
      rfl
  | some lab =>
    have hne1 : num - 1 ≠ 0 := by omega
    have h0lt : 0 < num := by omega
    have hlast : num - 1 < num := by omega
    have hst1 : setThirdE ((List.range num).map
        (fun k : Nat => sampleEntry encoding norm ((k : ℚ) / ((num : ℚ) - 1)))) 0
        lab.minValue = .ok (((List.range num).map
          (fun k : Nat => sampleEntry encoding norm ((k : ℚ) / ((num : ℚ) - 1)))).set 0
          { sampleEntry encoding norm (((0 : Nat) : ℚ) / ((num : ℚ) - 1)) with
            override := lab.minValue }) :=
      setThirdE_zero _ _ _ (hbget 0 h0lt)
    have hst1len : (((List.range num).map
        (fun k : Nat => sampleEntry encoding norm ((k : ℚ) / ((num : ℚ) - 1)))).set 0
        { sampleEntry encoding norm (((0 : Nat) : ℚ) / ((num : ℚ) - 1)) with
          override := lab.minValue }).length = num := by
      rw [List.length_set]
      exact hblen
    have he1 : (((List.range num).map
        (fun k : Nat => sampleEntry encoding norm ((k : ℚ) / ((num : ℚ) - 1)))).set 0
        { sampleEntry encoding norm (((0 : Nat) : ℚ) / ((num : ℚ) - 1)) with
          override := lab.minValue })[num - 1]? =
        some (sampleEntry encoding norm (((num - 1 : Nat) : ℚ) / ((num : ℚ) - 1))) := by
      rw [List.getElem?_set_ne (by omega : (0 : Nat) ≠ num - 1)]
      exact hbget (num - 1) hlast
    have hst2 : setThirdE (((List.range num).map
        (fun k : Nat => sampleEntry encoding norm ((k : ℚ) / ((num : ℚ) - 1)))).set 0
        { sampleEntry encoding norm (((0 : Nat) : ℚ) / ((num : ℚ) - 1)) with
          override := lab.minValue }) (-1) lab.maxValue =
        .ok ((((List.range num).map
          (fun k : Nat => sampleEntry encoding norm ((k : ℚ) / ((num : ℚ) - 1)))).set 0
          { sampleEntry encoding norm (((0 : Nat) : ℚ) / ((num : ℚ) - 1)) with
            override := lab.minValue }).set (num - 1)
          { sampleEntry encoding norm (((num - 1 : Nat) : ℚ) / ((num : ℚ) - 1)) with
            override := lab.maxValue }) := by
      have hs2 := setThirdE_last _ lab.maxValue _
        (by rw [hst1len]; omega) (by rw [hst1len]; exact he1)
      rw [hst1len] at hs2
      exact hs2
    refine ⟨(((List.range num).map
        (fun k : Nat => sampleEntry encoding norm ((k : ℚ) / ((num : ℚ) - 1)))).set 0
        { sampleEntry encoding norm (((0 : Nat) : ℚ) / ((num : ℚ) - 1)) with
          override := lab.minValue }).set (num - 1)
        { sampleEntry encoding norm (((num - 1 : Nat) : ℚ) / ((num : ℚ) - 1)) with
          override := lab.maxValue }, ?_, ?_, ?_⟩
    · show create_legend encoding norm none (some lab) num ord = _
      simp only [create_legend, hcont, hst1, hst2]
    · rw [List.length_set, List.length_set]
      exact hblen
    · intro k hk
      by_cases hk0 : k = 0
      · subst hk0
        rw [List.getElem?_set_ne (by omega : num - 1 ≠ 0)]
        rw [List.getElem?_set_self (by rw [hblen]; omega)]
        simp [hne1, sampleEntry]
      · by_cases hk1 : k = num - 1
        · subst hk1
          rw [List.getElem?_set_self (by rw [List.length_set, hblen]; omega)]
          simp [hne1, hk0, sampleEntry]
        · rw [List.getElem?_set_ne (by omega : num - 1 ≠ k)]
          rw [List.getElem?_set_ne (by omega : (0 : Nat) ≠ k)]
          rw [hbget k hk]
          simp [hk0, hk1, sampleEntry]

/-- C7: with `categories` absent, `sampleCount ≥ 2` and a non-empty
encoding, the legend holds `sampleCount` entries, the `k`-th sampled at
fraction `k/(sampleCount-1)`, labelled with `norm.inverse` of that
fraction and valued `encoding[floor((len-1)*s)]`; a supplied `labeling`
only replaces the override caption of the first entry by `minValue` and of
the last by `maxValue`.  The second conjunct checks the spec's 5-sample
example (indices 0,1,2,3,4 with overrides "lo" and "hi"). -/
theorem continuous_legend :
    (∀ (encoding : List ℚ) (norm : ℚ → ℚ) (labeling : Option Labeling)
        (num : Nat) (ord : Option (List String)),
      1 ≤ encoding.length → 2 ≤ num →
      ∃ vals, create_legend encoding norm none labeling num ord =
          .ok { var := labeling.bind Labeling.var, values := vals } ∧
        vals.length = num ∧
        ∀ k, k < num →
          vals[k]? = some
            { label := Label.num (norm ((k : ℚ) / ((num : ℚ) - 1)))
              value := encoding.getD
                (ratFloorNat (((encoding.length : ℚ) - 1) * ((k : ℚ) / ((num : ℚ) - 1)))) 0
              override := if k = 0 then labeling.bind Labeling.minValue
                else if k = num - 1 then labeling.bind Labeling.maxValue
                else none }) ∧
    create_legend [0, 1, 2, 3, 4] id none
        (some { var := none, minValue := some "lo", maxValue := some "hi" }) 5 none =
      .ok { var := none,
            values := [⟨.num 0, 0, some "lo"⟩, ⟨.num (1 / 4), 1, none⟩,
                       ⟨.num (1 / 2), 2, none⟩, ⟨.num (3 / 4), 3, none⟩,
                       ⟨.num 1, 4, some "hi"⟩] } := by
  refine ⟨continuous_legend_aux, ?_⟩
  obtain ⟨vals, hv, hlen, hpt⟩ := continuous_legend_aux [0, 1, 2, 3, 4] id
    (some { var := none, minValue := some "lo", maxValue := some "hi" }) 5 none
    (by decide) (by decide)
  have hvals : vals = [⟨.num 0, 0, some "lo"⟩, ⟨.num (1 / 4), 1, none⟩,
      ⟨.num (1 / 2), 2, none⟩, ⟨.num (3 / 4), 3, none⟩, ⟨.num 1, 4, some "hi"⟩] := by
    apply List.ext_getElem?
    intro n
    match n with
    | 0 =>
      rw [hpt 0 (by norm_num)]
      norm_num [ratFloorNat, List.getD]
    | 1 =>
      rw [hpt 1 (by norm_num)]
      norm_num [ratFloorNat, List.getD]
    | 2 =>
      rw [hpt 2 (by norm_num)]
      norm_num [ratFloorNat, List.getD]
      rfl
    | 3 =>
      rw [hpt 3 (by norm_num)]
      norm_num [ratFloorNat, List.getD]
      rfl
    | 4 =>
      rw [hpt 4 (by norm_num)]
      norm_num [ratFloorNat, List.getD]
      rfl
    | m + 5 =>
      rw [List.getElem?_eq_none (by rw [hlen]; omega),
        List.getElem?_eq_none (by simp)]
  rw [hv, hvals]
  rfl

/-- Witness for `continuous_legend` at the spec's example inputs. -/
theorem continuous_legend_witness :
    (1 ≤ ([0, 1, 2, 3, 4] : List ℚ).length) ∧ (2 ≤ 5) ∧
    (∃ vals, create_legend [0, 1, 2, 3, 4] id none
        (some { var := none, minValue := some "lo", maxValue := some "hi" }) 5 none =
        .ok { var := none, values := vals } ∧ vals.length = 5) := by
  obtain ⟨vals, h1, h2, _⟩ := continuous_legend.1 [0, 1, 2, 3, 4] id
    (some { var := none, minValue := some "lo", maxValue := some "hi" }) 5 none
    (by decide) (by decide)
  exact ⟨by decide, by decide, vals, h1, h2⟩

/-! ### C8: categorical legend construction -/

theorem dinsert_of_not_mem {K V : Type} [DecidableEq K] (l : List (K × V)) (k : K) (v : V)
    (h : k ∉ l.map Prod.fst) : dinsert l k v = l ++ [(k, v)] := by
  induction l with
  | nil => rfl
  | cons p rest ih =>
    simp only [List.map_cons, List.mem_cons] at h
    push_neg at h
    rw [dinsert, if_neg (fun he => h.1 he.symm), ih h.2]
    rfl

theorem foldl_dinsert_append {K V : Type} [DecidableEq K] (l : List (K × V)) :
    ∀ acc : List (K × V), ((acc ++ l).map Prod.fst).Nodup →
      l.foldl (fun d p => dinsert d p.1 p.2) acc = acc ++ l := by
  induction l with
  | nil => intro acc _; simp
  | cons p rest ih =>
    intro acc h
    have happ : (acc ++ [p]) ++ rest = acc ++ p :: rest := by simp
    have hnotin : p.1 ∉ acc.map Prod.fst := by
      intro hmem
      rw [List.map_append] at h
      exact (List.nodup_append.mp h).2.2 hmem (by simp)
    rw [List.foldl_cons, dinsert_of_not_mem _ _ _ hnotin, Prod.mk.eta,
      ih (acc ++ [p]) (by rw [happ]; exact h), happ]

theorem pydictOf_eq_self {K V : Type} [DecidableEq K] (l : List (K × V))
    (h : (l.map Prod.fst).Nodup) : pydictOf l = l := by
  have := foldl_dinsert_append l [] (by simpa using h)
  simpa [pydictOf] using this

theorem dget_swap_of_mem (cs : List (String × Nat)) (hnd : (cs.map Prod.snd).Nodup)
    {lbl : String} {i : Nat} (hm : (lbl, i) ∈ cs) :
    dget (cs.map (fun p => (p.2, p.1))) i = some lbl := by
  induction cs with
  | nil => simp at hm
  | cons p rest ih =>
    rcases List.mem_cons.mp hm with heq | hm'
    · rw [← heq]
      simp [dget]
    · have hnd' : (rest.map Prod.snd).Nodup := by
        rw [List.map_cons] at hnd
        exact (List.nodup_cons.mp hnd).2
      have hp : p.2 ≠ i := by
        intro he
        rw [List.map_cons] at hnd
        exact (List.nodup_cons.mp hnd).1
          (he ▸ List.mem_map.mpr ⟨(lbl, i), hm', rfl⟩)
      simp only [List.map_cons, dget]
      rw [if_neg (by simpa using hp)]
      exact ih hnd' hm'

theorem catEntries_ok (cbi : List (Nat × String)) (enc : List ℚ) (il : List Nat)
    (h : ∀ i ∈ il, (dget cbi i).isSome = true ∧ i < enc.length) :
    ∃ vs, catEntries cbi enc (il.map some) = .ok vs ∧ vs.length = il.length ∧
      ∀ k, (hk : k < il.length) →
        ∃ lbl, dget cbi (il[k]) = some lbl ∧
          vs[k]? = some ⟨.str lbl, enc.getD (il[k]) 0, none⟩ := by
  induction il with
  | nil => exact ⟨[], rfl, rfl, fun k hk => absurd hk (Nat.not_lt_zero k)⟩
  | cons i rest ih =>
    obtain ⟨hsome, hlt⟩ := h i (List.mem_cons_self _ _)
    obtain ⟨lbl, hlbl⟩ := Option.isSome_iff_exists.mp hsome
    obtain ⟨vs, hvs, hlen, hpt⟩ := ih (fun j hj => h j (List.mem_cons_of_mem _ hj))
    refine ⟨⟨.str lbl, enc.getD i 0, none⟩ :: vs, ?_, ?_, ?_⟩
    · rw [List.map_cons, catEntries, hlbl, List.getElem?_eq_getElem hlt, hvs]
      rw [List.getD_eq_getElem enc 0 hlt]
      rfl
    · simp [hlen]
    · intro k hk
      match k with
      | 0 => exact ⟨lbl, by simpa using hlbl, by simp⟩
      | k' + 1 =>
        have hk' : k' < rest.length := by simpa using hk
        obtain ⟨lbl', h1, h2⟩ := hpt k' hk'
        exact ⟨lbl', by simpa using h1, by simpa using h2⟩

theorem catEntries_ne_sizeMismatch (cbi : List (Nat × String)) (enc : List ℚ) :
    ∀ il, catEntries cbi enc il ≠ .error .sizeMismatch := by
  intro il
  induction il with
  | nil => simp [catEntries]
  | cons oi rest ih =>
    cases oi with
    | none => simp [catEntries]
    | some i =>
      cases hd : dget cbi i with
      | none => simp [catEntries, hd]
      | some cat =>
        cases he : enc[i]? with
        | none => simp [catEntries, hd, he]
        | some x =>
          simp only [catEntries, hd, he]
          cases hrec : catEntries cbi enc rest with
          | error e =>
            intro hcon
            apply ih
            rw [hrec]
            simpa [Except.map] using hcon
          | ok vs => simp [Except.map]

theorem catEntries_map_ne (cbi : List (Nat × String)) (enc : List ℚ)
    (il : List (Option Nat)) (v : Option String) :
    (catEntries cbi enc il).map (fun vs => ({ var := v, values := vs } : Legend)) ≠
      .error .sizeMismatch := by
  cases hce : catEntries cbi enc il with
  | ok vs => simp [Except.map]
  | error e =>
    have h := catEntries_ne_sizeMismatch cbi enc il
    rw [hce] at h
    simpa [Except.map] using h

/-- C8: for a non-empty, well-formed category dict (distinct labels, whose
indices are exactly `0..N-1`), the legend builder fails with the
size-mismatch error iff `len(categories) ≠ len(encodedValues)`; otherwise
it returns entries `(categoryLabel, encodedValues[index], absent)` in
index order `0..N-1`, or in the explicit `categoryOrder` through the
category-to-index mapping.  The final conjunct checks the spec's example. -/
theorem categorical_legend :
    (∀ (encoding : List ℚ) (norm : ℚ → ℚ) (labeling : Option Labeling) (num : Nat)
        (cs : List (String × Nat)),
      cs ≠ [] → (cs.map Prod.fst).Nodup →
      (cs.map Prod.snd).Perm (List.range cs.length) →
      ((∀ ord, (create_legend encoding norm (some cs) labeling num ord =
          .error .sizeMismatch ↔ cs.length ≠ encoding.length)) ∧
      (cs.length = encoding.length →
        (∃ vals, create_legend encoding norm (some cs) labeling num none =
            .ok { var := labeling.bind Labeling.var, values := vals } ∧
          vals.length = cs.length ∧
          ∀ i, i < cs.length →
            ∃ lbl, (lbl, i) ∈ cs ∧ vals[i]? = some ⟨.str lbl, encoding.getD i 0, none⟩) ∧
        (∀ ord : List String, (∀ lbl ∈ ord, lbl ∈ cs.map Prod.fst) →
          ∃ vals, create_legend encoding norm (some cs) labeling num (some ord) =
              .ok { var := labeling.bind Labeling.var, values := vals } ∧
            vals.length = ord.length ∧
            ∀ k, (hk : k < ord.length) →
              ∃ i, (ord[k], i) ∈ cs ∧
                vals[k]? = some ⟨.str (ord[k]), encoding.getD i 0, none⟩)))) ∧
    create_legend [1 / 10, 9 / 10] id (some [("x", 0), ("y", 1)]) none 5 (some ["y", "x"]) =
      .ok { var := none,
            values := [⟨.str "y", 9 / 10, none⟩, ⟨.str "x", 1 / 10, none⟩] } := by
  constructor
  · intro encoding norm labeling num cs hne hkeys hperm
    have hie : cs.isEmpty = false := by
      cases cs with
      | nil => exact absurd rfl hne
      | cons p rest => rfl
    have hsnodup : (cs.map Prod.snd).Nodup := hperm.nodup_iff.mpr (List.nodup_range _)
    have hswap : pydictOf (cs.map (fun p => (p.2, p.1))) = cs.map (fun p => (p.2, p.1)) := by
      apply pydictOf_eq_self
      have hmm : (cs.map (fun p => (p.2, p.1))).map Prod.fst = cs.map Prod.snd := by
        rw [List.map_map]
        rfl
      rw [hmm]
      exact hsnodup
    have hmemidx : ∀ i, i < cs.length → ∃ lbl, (lbl, i) ∈ cs := by
      intro i hi
      have hmem : i ∈ cs.map Prod.snd := hperm.mem_iff.mpr (List.mem_range.mpr hi)
      obtain ⟨p, hp, hpi⟩ := List.mem_map.mp hmem
      exact ⟨p.1, by rw [← hpi, Prod.mk.eta]; exact hp⟩
    constructor
    · intro ord
      constructor
      · intro herr
        by_contra heq
        have hcl : create_legend encoding norm (some cs) labeling num ord =
            (catEntries (pydictOf (cs.map fun p => (p.2, p.1))) encoding
              (match ord with
               | none => (List.range (pydictOf (cs.map fun p => (p.2, p.1))).length).map some
               | some o => o.map (fun lbl => dget cs lbl))).map
              (fun vs => { var := labeling.bind Labeling.var, values := vs }) := by
          simp [create_legend, hie, heq]
          cases ord <;> rfl
        rw [hcl] at herr
        exact absurd herr (catEntries_map_ne _ _ _ _)
      · intro hne2
        simp [create_legend, hie, hne2]
    · intro heqlen
      constructor
      · -- iteration in index order 0..N-1
        have hcall : ∀ i ∈ List.range cs.length,
            (dget (cs.map fun p => (p.2, p.1)) i).isSome = true ∧ i < encoding.length := by
          intro i hi
          have hi' := List.mem_range.mp hi
          obtain ⟨lbl, hm⟩ := hmemidx i hi'
          exact ⟨by rw [dget_swap_of_mem cs hsnodup hm]; rfl, heqlen ▸ hi'⟩
        obtain ⟨vs, hvs, hlen, hpt⟩ :=
          catEntries_ok (cs.map fun p => (p.2, p.1)) encoding (List.range cs.length) hcall
        refine ⟨vs, ?_, ?_, ?_⟩
        · have hcl : create_legend encoding norm (some cs) labeling num none =
              (catEntries (pydictOf (cs.map fun p => (p.2, p.1))) encoding
                ((List.range (pydictOf (cs.map fun p => (p.2, p.1))).length).map some)).map
                (fun vs => { var := labeling.bind Labeling.var, values := vs }) := by
            simp [create_legend, hie, heqlen]
          rw [hcl, hswap, List.length_map, hvs]
          rfl
        · rw [hlen, List.length_range]
        · intro i hi
          have hi' : i < (List.range cs.length).length := by simpa using hi
          obtain ⟨lbl, h1, h2⟩ := hpt i hi'
          rw [List.getElem_range] at h1 h2
          refine ⟨lbl, ?_, h2⟩
          obtain ⟨p, hp, hpe⟩ := List.mem_map.mp (dget_some_mem h1)
          have h3 := ((Prod.mk.injEq _ _ _ _).mp hpe).1
          have h4 := ((Prod.mk.injEq _ _ _ _).mp hpe).2
          rw [← h3, ← h4, Prod.mk.eta]
          exact hp
      · -- iteration in the explicit categoryOrder
        intro ord hord
        have hg : ∀ lbl ∈ ord, ∃ i, dget cs lbl = some i := by
          intro lbl hl
          exact Option.isSome_iff_exists.mp ((dget_isSome_iff cs lbl).mpr (hord lbl hl))
        have hmapeq : ord.map (fun lbl => dget cs lbl) =
            (ord.map (fun lbl => (dget cs lbl).getD 0)).map some := by
          rw [List.map_map]
          apply List.map_congr_left
          intro lbl hl
          obtain ⟨i, hi⟩ := hg lbl hl
          simp [hi]
        have hcall : ∀ i ∈ ord.map (fun lbl => (dget cs lbl).getD 0),
            (dget (cs.map fun p => (p.2, p.1)) i).isSome = true ∧ i < encoding.length := by
          intro i hi
          obtain ⟨lbl, hl, hli⟩ := List.mem_map.mp hi
          obtain ⟨i', hi'⟩ := hg lbl hl
          have hii : i = i' := by rw [← hli, hi']; rfl
          subst hii
          have hmem := dget_some_mem hi'
          have hilen : i < cs.length := by
            have hin : i ∈ cs.map Prod.snd := List.mem_map.mpr ⟨(lbl, i), hmem, rfl⟩
            exact List.mem_range.mp (hperm.mem_iff.mp hin)
          exact ⟨by rw [dget_swap_of_mem cs hsnodup hmem]; rfl, heqlen ▸ hilen⟩
        obtain ⟨vs, hvs, hlen, hpt⟩ :=
          catEntries_ok (cs.map fun p => (p.2, p.1)) encoding
            (ord.map (fun lbl => (dget cs lbl).getD 0)) hcall
        refine ⟨vs, ?_, ?_, ?_⟩
        · have hcl : create_legend encoding norm (some cs) labeling num (some ord) =
              (catEntries (pydictOf (cs.map fun p => (p.2, p.1))) encoding
                (ord.map (fun lbl => dget cs lbl))).map
                (fun vs => { var := labeling.bind Labeling.var, values := vs }) := by
            simp [create_legend, hie, heqlen]
          rw [hcl, hswap, hmapeq, hvs]
          rfl
        · rw [hlen, List.length_map]
        · intro k hk
          have hk' : k < (ord.map (fun lbl => (dget cs lbl).getD 0)).length := by simpa using hk
          obtain ⟨lbl', h1, h2⟩ := hpt k hk'
          have hkel : (ord.map (fun lbl => (dget cs lbl).getD 0))[k] =
              (dget cs (ord[k])).getD 0 := List.getElem_map _
          obtain ⟨i, hi⟩ := hg (ord[k]) (List.getElem_mem hk)
          have hgd : (dget cs (ord[k])).getD 0 = i := by rw [hi]; rfl
          have hmem := dget_some_mem hi
          have hlbl : dget (cs.map fun p => (p.2, p.1)) i = some (ord[k]) :=
            dget_swap_of_mem cs hsnodup hmem
          rw [hkel, hgd] at h1 h2
          rw [h1] at hlbl
          refine ⟨i, hmem, ?_⟩
          rw [h2, Option.some.inj hlbl]
  · rfl

/-- Witness for `categorical_legend`: the spec's category dict
`{"x": 0, "y": 1}` is non-empty and well-formed, and the order
`["y", "x"]` produces a two-entry legend. -/
theorem categorical_legend_witness :
    (([("x", 0), ("y", 1)] : List (String × Nat)) ≠ []) ∧
    ((([("x", 0), ("y", 1)] : List (String × Nat)).map Prod.fst).Nodup) ∧
    ((([("x", 0), ("y", 1)] : List (String × Nat)).map Prod.snd).Perm (List.range 2)) ∧
    (∃ vals,
      create_legend [1 / 10, 9 / 10] id (some [("x", 0), ("y", 1)]) none 5 (some ["y", "x"]) =
        .ok { var := none, values := vals } ∧ vals.length = 2) := by
  have hmain := (categorical_legend.1 [1 / 10, 9 / 10] id none 5 [("x", 0), ("y", 1)]
    (by decide) (by decide) (by decide)).2 (by decide)
  obtain ⟨vals, hv, hl, _⟩ := hmain.2 ["y", "x"] (by decide)
  exact ⟨by decide, by decide, by decide, vals, hv, hl⟩

/-! ### C1 / C2: the reference-count check in `delete` is dead code -/

/-- C1: slot sharing should be reference-counted — after `set(c1,a)` and
`set(c2,a)` exactly one slot is occupied by `"a"` (which the code gets
right), but `delete(c1)` must leave the slot allocated and `dataEncodings`
still mapping `"a"`.  The code instead frees the slot and drops `"a"`
while `"c2"` still references it (the guard at `encodings.py:166` compares
`VisualEncoding` values to a string, which is always false), and the
subsequent `delete(c2)` then raises `KeyError` instead of performing the
claimed final cleanup.  This theorem evaluates the model at that failing
input. -/
theorem delete_shared_attribute_bug :
    ((Encodings.init 4 2).set "c1" "a" >>= fun E => E.set "c2" "a") = .ok stateA2 ∧
    stateA2.components.components.countP (fun c => decide (c.encoding = some "a")) = 1 ∧
    stateA2.delete "c1" = .ok stateA3 ∧
    stateA3.components.components.countP (fun c => decide (c.encoding = some "a")) = 0 ∧
    dget stateA3.data "a" = none ∧
    dget stateA3.visual "c2" = some ⟨"c2", "a", none⟩ ∧
    stateA3.delete "c2" = .error (.keyError, { stateA3 with visual := [] }) := by
  decide

/-- C2: the registry invariant holds after the two `set` calls but is
destroyed by `delete("c1")`: afterwards `"c2"` still references data
attribute `"a"`, which no longer has a `dataEncodings` entry. -/
theorem invariant_broken_by_delete :
    stateA2.claimInvariant ∧
    stateA2.delete "c1" = .ok stateA3 ∧
    ¬ stateA3.claimInvariant := by
  decide

/-! ### C4: the capacity scenario -/

/-- C4 counterexample: on `Encodings(4, 2)` with two distinct attributes
set, the failed third `set` leaves `size = 4` (2 reserved + 2 allocated),
not `2` as the claim states (`size` counts every used slot, reserved ones
included). -/
theorem capacity_scenario_size_cex :
    ((Encodings.init 4 2).set "c1" "a" >>= fun E => E.set "c2" "b") = .ok stateB2 ∧
    stateB2.set "c3" "c" = .error (.assertionError, stateB2) ∧
    stateB2.components.size ≠ 2 := by
  decide

/-- C4 amended: `maxAttributes = 2`; the third distinct data attribute
raises the capacity error leaving the registry unchanged; afterwards
`size` (count of used slots) still reports `4`, of which exactly `2` are
non-reserved allocations. -/
theorem capacity_scenario_amended :
    (Encodings.init 4 2).max = 2 ∧
    ((Encodings.init 4 2).set "c1" "a" >>= fun E => E.set "c2" "b") = .ok stateB2 ∧
    stateB2.set "c3" "c" = .error (.assertionError, stateB2) ∧
    stateB2.components.size = 4 ∧
    stateB2.components.components.countP (fun c => !c.reserved && c.used) = 2 := by
  decide

/-! ### C6: re-setting a channel to its current attribute -/

/-- C6 counterexample: in `stateB3` (reachable from a fresh registry by
`set(c1,a); set(c2,b); delete(c1)`) channel `"c2"` is already set to
`"b"`, which sits in slot 3; calling `set("c2","b")` again frees and
reallocates it, moving `"b"` to slot 2 — the call is not a no-op on the
pool and the attribute's slot index changes. -/
theorem set_same_attribute_moves_slot_cex :
    ((Encodings.init 4 2).set "c1" "a" >>=
      fun E => E.set "c2" "b" >>= fun E2 => E2.delete "c1") = .ok stateB3 ∧
    dget stateB3.visual "c2" = some ⟨"c2", "b", none⟩ ∧
    dget stateB3.data "b" = some (some 3) ∧
    stateB3.set "c2" "b" = .ok stateB4 ∧
    dget stateB4.data "b" = some (some 2) ∧
    stateB4.components ≠ stateB3.components := by
  decide

/-! ### C10: an empty categories dict falls through to the continuous branch -/

theorem contEntries_ne_sizeMismatch (encoding : List ℚ) (norm : ℚ → ℚ) :
    ∀ ss, contEntries encoding norm ss ≠ .error .sizeMismatch := by
  intro ss
  induction ss with
  | nil => simp [contEntries]
  | cons s rest ih =>
    cases hp : pyIndex encoding ⌊((encoding.length : ℚ) - 1) * s⌋ with
    | none => simp [contEntries, hp]
    | some x =>
      simp only [contEntries, hp]
      cases hrec : contEntries encoding norm rest with
      | error e =>
        intro hcon
        apply ih
        rw [hrec]
        simpa [Except.map] using hcon
      | ok vs => simp [Except.map]

theorem setThirdE_ne_sizeMismatch (l : List LegendEntry) (i : Int) (o : Option String) :
    setThirdE l i o ≠ .error .sizeMismatch := by
  rw [setThirdE]
  cases hp : pyIndex l i <;> simp

/-- The continuous branch (`categories` absent) can raise IndexError but
never the size-mismatch assertion. -/
theorem cont_ne_sizeMismatch (encoding : List ℚ) (norm : ℚ → ℚ) (labeling : Option Labeling)
    (num : Nat) (ord : Option (List String)) :
    create_legend encoding norm none labeling num ord ≠ .error .sizeMismatch := by
  cases hc : contEntries encoding norm (linspace num) with
  | error e =>
    have h := contEntries_ne_sizeMismatch encoding norm (linspace num)
    rw [hc] at h
    have he : e ≠ .sizeMismatch := fun hee => h (by rw [hee])
    simp only [create_legend, hc]
    intro hcon
    exact he (Except.error.inj hcon)
  | ok base =>
    cases labeling with
    | none => simp [create_legend, hc]
    | some lab =>
      cases h1 : setThirdE base 0 lab.minValue with
      | error e =>
        have h := setThirdE_ne_sizeMismatch base 0 lab.minValue
        rw [h1] at h
        have he : e ≠ .sizeMismatch := fun hee => h (by rw [hee])
        simp only [create_legend, hc, h1]
        intro hcon
        exact he (Except.error.inj hcon)
      | ok v1 =>
        cases h2 : setThirdE v1 (-1) lab.maxValue with
        | error e =>
          have h := setThirdE_ne_sizeMismatch v1 (-1) lab.maxValue
          rw [h2] at h
          have he : e ≠ .sizeMismatch := fun hee => h (by rw [hee])
          simp only [create_legend, hc, h1, h2]
          intro hcon
          exact he (Except.error.inj hcon)
        | ok v2 => simp [create_legend, hc, h1, h2]

/-- C10: calling the legend builder with a zero-entry `categories` dict and
a non-empty encoding takes the continuous branch: the result is exactly
the one produced with `categories` absent, and in particular the
size-mismatch check is never performed (the call never fails with the
size-mismatch error, whatever the relation between the two lengths). -/
theorem empty_categories_fall_through :
    ∀ (encoding : List ℚ) (norm : ℚ → ℚ) (labeling : Option Labeling)
      (num : Nat) (ord : Option (List String)),
      encoding ≠ [] →
      create_legend encoding norm (some []) labeling num ord =
        create_legend encoding norm none labeling num ord ∧
      create_legend encoding norm (some []) labeling num ord ≠ .error .sizeMismatch := by
  intro encoding norm labeling num ord _hne
  have heq : create_legend encoding norm (some []) labeling num ord =
      create_legend encoding norm none labeling num ord := rfl
  exact ⟨heq, heq ▸ cont_ne_sizeMismatch encoding norm labeling num ord⟩

/-- Witness for `empty_categories_fall_through` at a one-element encoding
whose length differs from the (empty) categories dict. -/
theorem empty_categories_fall_through_witness :
    (([1] : List ℚ) ≠ []) ∧
    (create_legend [1] id (some []) none 5 none = create_legend [1] id none none 5 none ∧
     create_legend [1] id (some []) none 5 none ≠ .error .sizeMismatch) :=
  ⟨by decide, empty_categories_fall_through [1] id none 5 none (by decide)⟩

end Jscatter
